import Mathlib

/-!
Verification development for the `s3_generic` object-storage access layer
(`src/s3_generic/mod.rs`, `src/s3_generic/fetchers_and_getters.rs`,
`src/s3_generic/cannonical_location.rs`).

Shallow embedding conventions:
- Rust `String` / `&str` keys, buckets and prefixes are embedded as `List Char`
  (abbreviated `Str`); payload bytes (`Vec<u8>`) as `List Nat`.
- The S3 backend is embedded as an explicit store mapping (bucket, key) to the
  stored object.  Each network operation of the code becomes a pure function of
  the store (and, where a claim needs fault behaviour, of an explicit outcome
  or fault oracle standing for the AWS SDK response).
- Paginated `list_objects_v2` traffic is embedded as the list of page responses
  the backend serves, in the order the loop requests them; a response carries
  the same fields the code inspects (`contents`, `is_truncated`,
  `next_continuation_token`, and per-object optional `key`).
- `serde_json` is an external library; it is embedded as a codec record whose
  encoder/decoder are parameters, so that round-trip statements are explicit
  about the codec property they assume.
-/

/-- Keys, buckets and prefixes: Rust strings embedded as lists of characters. -/
abbrev Str := List Char

/-- Payload bytes (`Vec<u8>`). -/
abbrev Bytes := List Nat

/-- One stored S3 object: its payload and whether its ACL marks it publicly
readable (the code's `ObjectCannedAcl::PublicRead`). -/
structure S3Object where
  data : Bytes
  public_read : Bool
  deriving DecidableEq

/-- The backend store: bucket → key → stored object (if any). -/
def Store : Type := Str → Str → Option S3Object

/-- Pointwise update of the store at one (bucket, key) slot. -/
def Store.set (σ : Store) (bucket key : Str) (v : Option S3Object) : Store :=
  fun b k => if b = bucket ∧ k = key then v else σ b k

/-- The store with no objects. -/
def emptyStore : Store := fun _ _ => none

theorem Store.set_self (σ : Store) (bucket key : Str) (v : Option S3Object) :
    (σ.set bucket key v) bucket key = v := by
  simp [Store.set]

theorem Store.set_other (σ : Store) (bucket key b k : Str) (v : Option S3Object)
    (h : ¬(b = bucket ∧ k = key)) : (σ.set bucket key v) b k = σ b k := by
  simp [Store.set, h]

/-- Error taxonomy of the access layer.  In the code each operation returns
`anyhow::Result`, but the failure values it propagates stay distinguishable:
`NotFound` is the SDK's `GetObjectError::NoSuchKey` service error, `transport`
is any other `SdkError` from a request, `bodyReadError` is a failure collecting
the response byte stream, and `serialization` is a `serde_json` failure. -/
inductive S3Error where
  | notFound
  | transport
  | bodyReadError
  | serialization
  deriving DecidableEq

/-- The response body stream of a `get_object` call: collecting it either
yields the payload bytes or fails (the `output.body.collect()` step). -/
inductive BodyStream where
  | ok (bytes : Bytes)
  | corrupt
  deriving DecidableEq

/-- Outcome of the SDK's `get_object(...).send()` call: success carrying a body
stream, the `NoSuchKey` service error, or any other SDK (network/service)
error. -/
inductive GetObjectOutcome where
  | success (body : BodyStream)
  | noSuchKey
  | serviceOther
  deriving DecidableEq

/-- Collecting the body stream (`output.body.collect()`): the error is mapped
through unchanged, so the caller sees a body-read failure. -/
def collectBody : BodyStream → Except S3Error Bytes
  | .ok bs => .ok bs
  | .corrupt => .error .bodyReadError

/-- Embedding of `S3Addr::download_bytes` as a function of the SDK outcome.
The code matches `SdkError::ServiceError(NoSuchKey)` (logging it at debug
level) and returns the error unchanged; any other send error is returned
unchanged as well; on success it collects the body.  Either way, the error
value the caller receives keeps its kind, which is what this taxonomy
records. -/
def downloadBytesOutcome : GetObjectOutcome → Except S3Error Bytes
  | .noSuchKey => .error .notFound
  | .serviceOther => .error .transport
  | .success body => collectBody body

/-- A fault-free S3 backend answering a `get_object` request from the store:
it serves the stored bytes when the key exists and `NoSuchKey` otherwise. -/
def s3GetObject (σ : Store) (bucket key : Str) : GetObjectOutcome :=
  match σ bucket key with
  | some obj => .success (.ok obj.data)
  | none => .noSuchKey

/-- An object address: one (bucket, key) pair (the shared client handle of the
Rust struct is embedded as the explicit store each operation receives). -/
structure S3Addr where
  bucket : Str
  key : Str
  deriving DecidableEq

/-- Source: `S3Addr::download_bytes`, run against the fault-free backend over
store `σ`. -/
def S3Addr.download_bytes (a : S3Addr) (σ : Store) : Except S3Error Bytes :=
  downloadBytesOutcome (s3GetObject σ a.bucket a.key)

/-- Source: `S3Addr::upload_bytes`.  The `put_object` request carries the body
and hard-codes `.acl(ObjectCannedAcl::PublicRead)`; there is no conditional
(if-absent) header, so the slot at (bucket, key) is overwritten whatever it
held before. -/
def S3Addr.upload_bytes (a : S3Addr) (bytes : Bytes) (σ : Store) : Store :=
  σ.set a.bucket a.key (some ⟨bytes, true⟩)

/-- Source: `S3Addr::delete_file` (`delete_object`), fault-free case: the slot
is emptied.  Per-key delete faults are modelled where `delete_all` needs them,
by an explicit fault oracle. -/
def S3Addr.delete_file (a : S3Addr) (σ : Store) : Store :=
  σ.set a.bucket a.key none

/-- Embedding of the `serde_json` calls the code makes: `to_string_pretty`
(the encoder `upload_json` uses) and `from_slice` (the decoder `download_json`
uses).  The codec is a parameter, so every round-trip statement names the
codec property it relies on instead of assuming it silently. -/
structure JsonCodec (T : Type) where
  to_string_pretty : T → Bytes
  from_slice : Bytes → Option T

/-- Source: `S3Addr::upload_json` — serialize with the pretty encoder, then
`upload_bytes`. -/
def S3Addr.upload_json {T : Type} (a : S3Addr) (c : JsonCodec T) (obj : T)
    (σ : Store) : Store :=
  a.upload_bytes (c.to_string_pretty obj) σ

/-- Source: `S3Addr::download_json` — `download_bytes`, then
`serde_json::from_slice`; a decode failure surfaces as a serialization
error. -/
def S3Addr.download_json {T : Type} (a : S3Addr) (c : JsonCodec T)
    (σ : Store) : Except S3Error T :=
  match a.download_bytes σ with
  | .error e => .error e
  | .ok bytes =>
    match c.from_slice bytes with
    | some v => .ok v
    | none => .error .serialization

/-- Source: `S3Credentials` in `mod.rs`: region, endpoint and the two secret
fields. -/
structure S3Credentials where
  cloud_region : String
  endpoint : String
  access_key : String
  secret_key : String
  deriving DecidableEq

/-- Source: `impl PartialEq for S3Credentials` — equality compares
`cloud_region` and `endpoint` only. -/
def S3Credentials.beq (a b : S3Credentials) : Bool :=
  a.cloud_region == b.cloud_region && a.endpoint == b.endpoint

/-- Source: `impl Debug for S3Credentials` — the `debug_struct` output prints
region and endpoint and the literal `"***"` in place of both secret fields. -/
def S3Credentials.debugFmt (c : S3Credentials) : String :=
  "S3Credentials \x7b cloud_region: \"" ++ c.cloud_region ++
  "\", endpoint: \"" ++ c.endpoint ++
  "\", access_key: \"***\", secret_key: \"***\" \x7d"

/-- Source: the `CannonicalS3ObjectLocation` trait in `cannonical_location.rs`.
The trait's three derivation functions become the fields of this record; the
`AddressInfo` associated type is the parameter `A`.  The serde bounds the trait
puts on the object type are carried separately by a `JsonCodec`. -/
structure CannonicalS3ObjectLocation (A : Type) where
  generate_object_key : A → Str
  generate_bucket : A → Str
  get_credentials : A → S3Credentials

/-- Source: `get_openscrapers_json_key` — the derived key plus the literal
`".json"` suffix. -/
def get_openscrapers_json_key {A : Type} (L : CannonicalS3ObjectLocation A)
    (addr : A) : Str :=
  L.generate_object_key addr ++ ['.', 'j', 's', 'o', 'n']

/-- Modelled from the spec: the `s3_uri` module (declared in `mod.rs` as
`pub mod s3_uri` and used via `S3LocationWithCredentials`) has no source file
under `src/`.  Per the spec, the canonical URI is a shareable locator
embedding the bucket, the key, and a credential reference; the value is
modelled as the record of exactly those embedded coordinates (its textual
rendering is not in the sources). -/
structure S3LocationWithCredentials where
  key : Str
  bucket : Str
  credentials : S3Credentials

/-- Modelled from the spec: the missing module's constructor
`S3LocationWithCredentials::from_key_bucket_and_credentials`. -/
def S3LocationWithCredentials.from_key_bucket_and_credentials
    (key bucket : Str) (credentials : S3Credentials) : S3LocationWithCredentials :=
  ⟨key, bucket, credentials⟩

/-- Source: `get_s3_json_uri` — builds the location from the derived json key,
the derived bucket and the derived credentials (the final `.to_string()`
rendering lives in the missing `s3_uri` module, so the embedded location value
itself is returned). -/
def get_s3_json_uri {A : Type} (L : CannonicalS3ObjectLocation A) (addr : A) :
    S3LocationWithCredentials :=
  S3LocationWithCredentials.from_key_bucket_and_credentials
    (get_openscrapers_json_key L addr) (L.generate_bucket addr)
    (L.get_credentials addr)

/-- Source: `download_openscrapers_object` — derive key and bucket, build the
object address, delegate to `download_json`. -/
def download_openscrapers_object {A T : Type} (c : JsonCodec T)
    (L : CannonicalS3ObjectLocation A) (addr : A) (σ : Store) :
    Except S3Error T :=
  (S3Addr.mk (L.generate_bucket addr) (get_openscrapers_json_key L addr)).download_json c σ

/-- Source: `upload_object` — derive key and bucket, build the object address,
delegate to `upload_json`. -/
def upload_object {A T : Type} (c : JsonCodec T)
    (L : CannonicalS3ObjectLocation A) (addr : A) (obj : T) (σ : Store) : Store :=
  (S3Addr.mk (L.generate_bucket addr) (get_openscrapers_json_key L addr)).upload_json c obj σ

/-- Source: `delete_openscrapers_s3_object` — derive key and bucket, build the
object address, delegate to `delete_file`. -/
def delete_openscrapers_s3_object {A : Type} (L : CannonicalS3ObjectLocation A)
    (addr : A) (σ : Store) : Store :=
  (S3Addr.mk (L.generate_bucket addr) (get_openscrapers_json_key L addr)).delete_file σ

/-- One `list_objects_v2` page response, carrying exactly the fields the code
inspects: the optional object list (each object with an optional key), the
`is_truncated` flag and the next continuation token. -/
structure ListPage where
  contents : Option (List (Option Str))
  is_truncated : Option Bool
  next_continuation_token : Option Str
  deriving DecidableEq

/-- The keys of one page, as the code extracts them: missing `contents` means
no objects, objects without a key are skipped. -/
def ListPage.keys (p : ListPage) : List Str :=
  (p.contents.getD []).filterMap id

/-- A directory address: one (bucket, prefix) pair; the field named `prefix`
in the Rust struct is called `pfx` here. -/
structure S3DirectoryAddr where
  bucket : Str
  pfx : Str
  deriving DecidableEq

/-- Source: `S3DirectoryAddr::new` — normalizes the caller-supplied prefix by
appending `'/'` unless it already ends with one. -/
def S3DirectoryAddr.new (bucket p : Str) : S3DirectoryAddr :=
  ⟨bucket, if p.getLast? = some '/' then p else p ++ ['/']⟩

/-- Source: `S3DirectoryAddr::list_all`.  The paginator issues one request per
page, passing the continuation token along; `pages` is the list of responses
the backend serves, in request order.  A failed page request (`result?`)
aborts the whole listing with that error; otherwise the page's keys are
accumulated, and pagination continues exactly while `is_truncated` is
`Some(true)`. -/
def list_all : List (Except S3Error ListPage) → Except S3Error (List Str)
  | [] => .ok []
  | .error e :: _ => .error e
  | .ok page :: rest =>
    if page.is_truncated = some true then
      match list_all rest with
      | .error e => .error e
      | .ok more => .ok (page.keys ++ more)
    else
      .ok page.keys

/-- Well-formed backend run for one listing: every page except the last
reports `is_truncated = Some(true)`, and the last does not. -/
def chainOk : List ListPage → Bool
  | [] => true
  | p :: rest =>
    (if rest.isEmpty then p.is_truncated != some true
     else p.is_truncated == some true) && chainOk rest

/-- All keys of a backend run, in page order. -/
def allKeys (pages : List ListPage) : List Str :=
  pages.flatMap ListPage.keys

/-- A single-page backend run carrying the given keys. -/
def singlePage (keys : List Str) : ListPage :=
  ⟨some (keys.map some), some false, none⟩

/-- Source: the inner loop of `S3DirectoryAddr::delete_all` over one page's
objects — objects without a key are skipped, each keyed object is deleted
individually, and a delete failure (the `?` on `delete_file`) aborts at once.
`f` is the per-key outcome of the backend's `delete_object` (`none` means
success).  The result pairs the operation outcome with the keys whose delete
succeeded, in order. -/
def deletePageObjects (f : Str → Option S3Error) :
    List (Option Str) → Except S3Error Unit × List Str
  | [] => (.ok (), [])
  | none :: rest => deletePageObjects f rest
  | some k :: rest =>
    match f k with
    | some e => (.error e, [])
    | none =>
      let r := deletePageObjects f rest
      (r.1, k :: r.2)

/-- Source: `S3DirectoryAddr::delete_all`.  The loop requests one page at a
time (`pages` is the backend's response sequence, a failed request aborting
via `?`), deletes that page's keyed objects sequentially, and continues
exactly while `is_truncated` is `Some(true)`.  The second component is the
sequence of keys actually deleted. -/
def delete_all (f : Str → Option S3Error) :
    List (Except S3Error ListPage) → Except S3Error Unit × List Str
  | [] => (.ok (), [])
  | .error e :: _ => (.error e, [])
  | .ok page :: rest =>
    match deletePageObjects f (page.contents.getD []) with
    | (.error e, done) => (.error e, done)
    | (.ok _, done) =>
      if page.is_truncated = some true then
        let r := delete_all f rest
        (r.1, done ++ r.2)
      else
        (.ok (), done)

/-- Flat reference semantics for bulk delete: walk the full key list in order,
delete each key individually, abort at the first failure with that error. -/
def runDeletes (f : Str → Option S3Error) :
    List Str → Except S3Error Unit × List Str
  | [] => (.ok (), [])
  | k :: rest =>
    match f k with
    | some e => (.error e, [])
    | none =>
      let r := runDeletes f rest
      (r.1, k :: r.2)

/-- Source: the `source_key.strip_prefix(&src_prefix)` call of `copy_into`
(Rust's `str::strip_prefix`): the suffix when the argument is a prefix,
`None` otherwise. -/
def stripPre (s pre : Str) : Option Str :=
  if pre.isPrefixOf s then some (s.drop pre.length) else none

/-- Source: the destination-key computation of `copy_into` —
`strip_prefix(...).unwrap_or(&source_key)` then prepending the destination
prefix.  Total: a key that does not carry the source prefix is kept whole. -/
def destination_key (srcPre destPre source_key : Str) : Str :=
  destPre ++ (stripPre source_key srcPre).getD source_key

/-- One copy request of `copy_into` against the store: the backend copies the
source object to the destination slot; a missing source or an injected fault
(`fails`) leaves the store unchanged — the code discards the request's result
either way. -/
def copyObject (σ : Store) (src_bucket source_key dest_bucket dest_key : Str)
    (fails : Bool) : Store :=
  match σ src_bucket source_key with
  | none => σ
  | some obj => if fails then σ else σ.set dest_bucket dest_key (some obj)

/-- The store update of one element of `copy_into`'s fan-out: compute the
destination key and issue the copy request. -/
def copyStep (src dst : S3DirectoryAddr) (copyFails : Str → Bool)
    (σ : Store) (source_key : Str) : Store :=
  copyObject σ src.bucket source_key dst.bucket
    (destination_key src.pfx dst.pfx source_key) (copyFails source_key)

/-- Result record of `copy_into`: the returned `anyhow::Result<()>`, the store
after the copies, and the `file_count` the code observes from
`buffer_unordered(25).count()` (the number of completed copy attempts). -/
structure CopyIntoResult where
  result : Except S3Error Unit
  store : Store
  file_count : Nat

/-- Source: `S3DirectoryAddr::copy_into`.  The enumeration phase is
`list_all`; its failure aborts the operation (`?`).  Each listed key is
remapped with `destination_key` and a copy request is issued with bounded
concurrency; each request's result is bound to `_copy_res` and dropped, and
`.count()` counts completed attempts.  In this embedding each copy is one
atomic store update and the unordered fan-out is applied in listing order;
`copyFails` injects per-request faults.  After the count the function returns
`Ok(())`. -/
def copy_into (src dst : S3DirectoryAddr) (pages : List (Except S3Error ListPage))
    (copyFails : Str → Bool) (σ : Store) : CopyIntoResult :=
  match list_all pages with
  | .error e => ⟨.error e, σ, 0⟩
  | .ok file_list =>
    ⟨.ok (), file_list.foldl (copyStep src dst copyFails) σ, file_list.length⟩

instance {ε α : Type} [DecidableEq ε] [DecidableEq α] : DecidableEq (Except ε α)
  | .error x, .error y =>
    if h : x = y then .isTrue (congrArg Except.error h)
    else .isFalse (fun hh => h (Except.error.inj hh))
  | .error _, .ok _ => .isFalse (fun hh => Except.noConfusion hh)
  | .ok _, .error _ => .isFalse (fun hh => Except.noConfusion hh)
  | .ok x, .ok y =>
    if h : x = y then .isTrue (congrArg Except.ok h)
    else .isFalse (fun hh => h (Except.ok.inj hh))

theorem isPrefixOf_append_self (l₁ l₂ : Str) : l₁.isPrefixOf (l₁ ++ l₂) = true := by
  induction l₁ with
  | nil => simp [List.isPrefixOf]
  | cons a as ih => simp [List.isPrefixOf, ih]

theorem destination_key_of_append (srcPre destPre rel : Str) :
    destination_key srcPre destPre (srcPre ++ rel) = destPre ++ rel := by
  unfold destination_key stripPre
  rw [isPrefixOf_append_self]
  simp [List.drop_left]

theorem copyObject_isSome {σ : Store} {sb sk db dk b k : Str} {fl : Bool}
    (h : (σ b k).isSome = true) :
    ((copyObject σ sb sk db dk fl) b k).isSome = true := by
  unfold copyObject
  cases hsrc : σ sb sk with
  | none => exact h
  | some obj =>
    cases fl with
    | true => simpa using h
    | false =>
      unfold Store.set
      by_cases hbk : b = db ∧ k = dk
      · simp [hbk]
      · simpa [hbk] using h

theorem copyObject_writes {σ : Store} {sb sk db dk : Str}
    (h : (σ sb sk).isSome = true) :
    ((copyObject σ sb sk db dk false) db dk).isSome = true := by
  unfold copyObject
  cases hsrc : σ sb sk with
  | none => rw [hsrc] at h; simp at h
  | some obj => simp [Store.set]

theorem foldl_copyStep_isSome (src dst : S3DirectoryAddr) (copyFails : Str → Bool)
    (l : List Str) (σ : Store) (b k : Str)
    (h : (σ b k).isSome = true) :
    ((l.foldl (copyStep src dst copyFails) σ) b k).isSome = true := by
  induction l generalizing σ with
  | nil => exact h
  | cons a as ih =>
    exact ih (copyStep src dst copyFails σ a) (copyObject_isSome h)

theorem foldl_copyStep_hits (src dst : S3DirectoryAddr) (copyFails : Str → Bool)
    (l : List Str) (σ : Store) (k0 : Str)
    (hmem : k0 ∈ l)
    (hsrc : (σ src.bucket k0).isSome = true)
    (hf : copyFails k0 = false) :
    ((l.foldl (copyStep src dst copyFails) σ) dst.bucket
      (destination_key src.pfx dst.pfx k0)).isSome = true := by
  induction l generalizing σ with
  | nil => cases hmem
  | cons a as ih =>
    rcases List.mem_cons.mp hmem with rfl | hmem'
    · have hw : ((copyStep src dst copyFails σ k0) dst.bucket
          (destination_key src.pfx dst.pfx k0)).isSome = true := by
        unfold copyStep
        rw [hf]
        exact copyObject_writes hsrc
      exact foldl_copyStep_isSome src dst copyFails as _ _ _ hw
    · exact ih (copyStep src dst copyFails σ a) hmem' (copyObject_isSome hsrc)

theorem runDeletes_all_ok (f : Str → Option S3Error) (l : List Str)
    (h : ∀ k ∈ l, f k = none) : runDeletes f l = (.ok (), l) := by
  induction l with
  | nil => rfl
  | cons a as ih =>
    have ha : f a = none := h a (List.mem_cons_self a as)
    have hrest := ih (fun k hk => h k (List.mem_cons_of_mem a hk))
    simp [runDeletes, ha, hrest]

theorem runDeletes_first_err (f : Str → Option S3Error) (done : List Str)
    (k : Str) (rest : List Str) (e : S3Error)
    (hdone : ∀ x ∈ done, f x = none) (hk : f k = some e) :
    runDeletes f (done ++ k :: rest) = (.error e, done) := by
  induction done with
  | nil => simp [runDeletes, hk]
  | cons d ds ih =>
    have hd : f d = none := hdone d (List.mem_cons_self d ds)
    have hds := ih (fun x hx => hdone x (List.mem_cons_of_mem d hx))
    simp [runDeletes, hd, hds]

theorem runDeletes_append (f : Str → Option S3Error) (l₁ l₂ : List Str) :
    runDeletes f (l₁ ++ l₂) =
      (match (runDeletes f l₁).1 with
       | .error e => (.error e, (runDeletes f l₁).2)
       | .ok _ => ((runDeletes f l₂).1, (runDeletes f l₁).2 ++ (runDeletes f l₂).2)) := by
  induction l₁ with
  | nil => simp [runDeletes]
  | cons a as ih =>
    cases ha : f a with
    | some e => simp [runDeletes, ha]
    | none =>
      cases hr : (runDeletes f as).1 with
      | error e => simp [runDeletes, ha, ih, hr]
      | ok u => simp [runDeletes, ha, ih, hr]

theorem deletePageObjects_eq_runDeletes (f : Str → Option S3Error)
    (objs : List (Option Str)) :
    deletePageObjects f objs = runDeletes f (objs.filterMap id) := by
  induction objs with
  | nil => rfl
  | cons o os ih =>
    cases o with
    | none => simpa [deletePageObjects] using ih
    | some k =>
      cases hk : f k with
      | some e => simp [deletePageObjects, runDeletes, hk]
      | none => simp [deletePageObjects, runDeletes, hk, ih]

theorem list_all_cons_ok (p : ListPage) (rest : List (Except S3Error ListPage)) :
    list_all (Except.ok p :: rest) =
      (if p.is_truncated = some true then
        match list_all rest with
        | .error e => .error e
        | .ok more => .ok (p.keys ++ more)
      else .ok p.keys) := rfl

theorem delete_all_cons_ok (f : Str → Option S3Error) (page : ListPage)
    (rest : List (Except S3Error ListPage)) :
    delete_all f (Except.ok page :: rest) =
      (match deletePageObjects f (page.contents.getD []) with
       | (.error e, done) => (.error e, done)
       | (.ok _, done) =>
         if page.is_truncated = some true then
           ((delete_all f rest).1, done ++ (delete_all f rest).2)
         else (.ok (), done)) := rfl

theorem allKeys_cons (p : ListPage) (rest : List ListPage) :
    allKeys (p :: rest) = p.keys ++ allKeys rest := by
  simp [allKeys]

theorem list_all_of_chainOk (pages : List ListPage) (h : chainOk pages = true) :
    list_all (pages.map Except.ok) = .ok (allKeys pages) := by
  induction pages with
  | nil => rfl
  | cons p rest ih =>
    have h' := h
    unfold chainOk at h'
    rw [Bool.and_eq_true] at h'
    cases rest with
    | nil =>
      have hp : ¬ p.is_truncated = some true := by
        have := h'.1
        simpa [List.isEmpty, bne_iff_ne] using this
      rw [List.map_cons, List.map_nil, list_all_cons_ok, if_neg hp]
      simp [allKeys]
    | cons q t =>
      have hp : p.is_truncated = some true := by
        have := h'.1
        simpa [List.isEmpty] using this
      have hrest := ih h'.2
      rw [List.map_cons, list_all_cons_ok, if_pos hp, hrest]
      simp [allKeys]

theorem delete_all_eq_runDeletes (f : Str → Option S3Error) (pages : List ListPage)
    (h : chainOk pages = true) :
    delete_all f (pages.map Except.ok) = runDeletes f (allKeys pages) := by
  induction pages with
  | nil => rfl
  | cons p rest ih =>
    have h' := h
    unfold chainOk at h'
    rw [Bool.and_eq_true] at h'
    have hpage := deletePageObjects_eq_runDeletes f (p.contents.getD [])
    have hkeys : (p.contents.getD []).filterMap id = p.keys := rfl
    rw [hkeys] at hpage
    have happ := runDeletes_append f p.keys (allKeys rest)
    cases rest with
    | nil =>
      have hp : ¬ p.is_truncated = some true := by
        have := h'.1
        simpa [List.isEmpty, bne_iff_ne] using this
      have hall : allKeys [p] = p.keys := by simp [allKeys]
      rw [List.map_cons, List.map_nil, delete_all_cons_ok, hpage, hall]
      cases hr : runDeletes f p.keys with
      | mk r1 r2 =>
        cases r1 with
        | error e => rfl
        | ok u => simp [hp]
    | cons q t =>
      have hp : p.is_truncated = some true := by
        have := h'.1
        simpa [List.isEmpty] using this
      have hrest := ih h'.2
      rw [List.map_cons, delete_all_cons_ok, hpage, allKeys_cons, happ]
      cases hr : runDeletes f p.keys with
      | mk r1 r2 =>
        cases r1 with
        | error e => rfl
        | ok u =>
          have hrest1 : delete_all f (Except.ok q :: List.map Except.ok t) =
              runDeletes f (allKeys (q :: t)) := by simpa using hrest
          simp [hp, hrest1]

/-- A small concrete codec (over `Bool`) whose decoder inverts its encoder,
used to instantiate the codec-parametric theorems on concrete inputs. -/
def boolCodec : JsonCodec Bool :=
  ⟨fun b => if b then [1] else [0],
   fun bs => if bs = [1] then some true else if bs = [0] then some false else none⟩

/-- Downloading JSON right after uploading JSON at the same address yields the
uploaded value, provided the codec decodes what it encoded for that value. -/
theorem download_json_after_upload_json {T : Type} (c : JsonCodec T) (a : S3Addr)
    (v : T) (σ : Store) (hc : c.from_slice (c.to_string_pretty v) = some v) :
    a.download_json c (a.upload_json c v σ) = .ok v := by
  simp [S3Addr.download_json, S3Addr.download_bytes, S3Addr.upload_json,
    S3Addr.upload_bytes, s3GetObject, Store.set, downloadBytesOutcome,
    collectBody, hc]

/-- C1: after the enumeration phase (`list_all`) succeeds, `copy_into` returns
success regardless of the outcome of the individual copy requests: the
returned result is independent of the per-copy fault oracle and of the store,
a listing failure is the only error the caller can see, and on success only
the count of completed copy attempts (the listed-key count) is observed. -/
theorem copy_into_swallows_copy_failures
    (src dst : S3DirectoryAddr) (pages : List (Except S3Error ListPage))
    (f g : Str → Bool) (σ σ' : Store) :
    (copy_into src dst pages f σ).result = (copy_into src dst pages g σ').result
    ∧ (∀ e, list_all pages = .error e →
        (copy_into src dst pages f σ).result = .error e)
    ∧ (∀ l, list_all pages = .ok l →
        (copy_into src dst pages f σ).result = .ok ()
        ∧ (copy_into src dst pages f σ).file_count = l.length) := by
  cases h : list_all pages with
  | error e => simp [copy_into, h]
  | ok l => simp [copy_into, h]

/-- Backend run used by the C1 witness: one page listing one key. -/
def c1Pages : List (Except S3Error ListPage) :=
  [Except.ok ⟨some [some ['s', '/', 'a']], some false, none⟩]

/-- Witness for C1: one listed key with every copy request failing — the
operation still returns success and reports one completed attempt. -/
theorem copy_into_swallows_copy_failures_witness :
    (copy_into (S3DirectoryAddr.new ['b'] ['s']) (S3DirectoryAddr.new ['b'] ['d'])
      c1Pages (fun _ => true) emptyStore).result = .ok ()
    ∧ (copy_into (S3DirectoryAddr.new ['b'] ['s']) (S3DirectoryAddr.new ['b'] ['d'])
      c1Pages (fun _ => true) emptyStore).file_count = 1 := by
  have h := copy_into_swallows_copy_failures (S3DirectoryAddr.new ['b'] ['s'])
    (S3DirectoryAddr.new ['b'] ['d']) c1Pages (fun _ => true) (fun _ => true)
    emptyStore emptyStore
  have hl : list_all c1Pages = .ok [['s', '/', 'a']] := by decide
  exact h.2.2 [['s', '/', 'a']] hl

/-- C2: assuming no copy faults, every key of the form `src.pfx ++ rel` that
is present in the source bucket and listed by the enumeration ends up, after
`copy_into` completes, with the key `dst.pfx ++ rel` present in the
destination — the remapping strips the source prefix and prepends the
destination prefix. -/
theorem copy_into_copies_each_prefixed_key
    (src dst : S3DirectoryAddr) (pages : List (Except S3Error ListPage))
    (σ : Store) (rel : Str) (file_list : List Str)
    (hlist : list_all pages = .ok file_list)
    (hmem : src.pfx ++ rel ∈ file_list)
    (hpresent : (σ src.bucket (src.pfx ++ rel)).isSome = true) :
    ((copy_into src dst pages (fun _ => false) σ).store dst.bucket
      (dst.pfx ++ rel)).isSome = true := by
  have h := foldl_copyStep_hits src dst (fun _ => false) file_list σ
    (src.pfx ++ rel) hmem hpresent rfl
  rw [destination_key_of_append] at h
  simpa [copy_into, hlist] using h

/-- Backend run used by the C2 witness. -/
def c2Pages : List (Except S3Error ListPage) :=
  [Except.ok ⟨some [some ['s', '/', 'a']], some false, none⟩]

/-- Witness for C2: the source holds `s/a`, the listing reports it, and after
the copy the destination holds `d/a`. -/
theorem copy_into_copies_each_prefixed_key_witness :
    ((copy_into (S3DirectoryAddr.new ['b'] ['s']) (S3DirectoryAddr.new ['b'] ['d'])
        c2Pages (fun _ => false)
        ((S3Addr.mk ['b'] ['s', '/', 'a']).upload_bytes [7] emptyStore)).store
      ['b'] (['d', '/'] ++ ['a'])).isSome = true := by
  exact copy_into_copies_each_prefixed_key
    (S3DirectoryAddr.new ['b'] ['s']) (S3DirectoryAddr.new ['b'] ['d'])
    c2Pages ((S3Addr.mk ['b'] ['s', '/', 'a']).upload_bytes [7] emptyStore)
    ['a'] [['s', '/', 'a']] (by decide) (by decide) (by decide)

/-- C3: pagination is transparent — over a well-formed multi-page backend run,
`list_all` returns exactly the (finite) concatenation of the pages' keys, the
same sequence a single-page response carrying those same keys produces. -/
theorem list_all_pagination_transparent (pages : List ListPage)
    (h : chainOk pages = true) :
    list_all (pages.map Except.ok) = .ok (allKeys pages)
    ∧ list_all [Except.ok (singlePage (allKeys pages))] = .ok (allKeys pages) := by
  refine ⟨list_all_of_chainOk pages h, ?_⟩
  simp [list_all, singlePage, ListPage.keys]

/-- Witness for C3: two pages holding keys `a` and `b`; the paged listing and
the single-page listing both return `[a, b]`. -/
theorem list_all_pagination_transparent_witness :
    list_all ([⟨some [some ['a']], some true, some ['t']⟩,
               ⟨some [some ['b']], some false, none⟩].map Except.ok)
        = .ok [['a'], ['b']]
    ∧ list_all [Except.ok (singlePage [['a'], ['b']])] = .ok [['a'], ['b']] := by
  have h := list_all_pagination_transparent
    [⟨some [some ['a']], some true, some ['t']⟩,
     ⟨some [some ['b']], some false, none⟩] (by decide)
  have ha : allKeys [⟨some [some ['a']], some true, some ['t']⟩,
      ⟨some [some ['b']], some false, none⟩] = [['a'], ['b']] := by decide
  rw [ha] at h
  exact h

/-- C4: JSON round trip — uploading a serializable value via `upload_json` and
downloading via `download_json` at the same address returns an equal value,
for every codec whose decoder inverts its encoder.  The statement is
parametric in the encoder, so it holds unchanged whether the encoder
pretty-prints (as the code does) or encodes compactly. -/
theorem upload_download_json_round_trip {T : Type} (c : JsonCodec T)
    (a : S3Addr) (v : T) (σ : Store)
    (hc : ∀ w, c.from_slice (c.to_string_pretty w) = some w) :
    a.download_json c (a.upload_json c v σ) = .ok v :=
  download_json_after_upload_json c a v σ (hc v)

/-- Witness for C4 with the concrete `Bool` codec at a concrete address. -/
theorem upload_download_json_round_trip_witness :
    (S3Addr.mk ['b'] ['k']).download_json boolCodec
      ((S3Addr.mk ['b'] ['k']).upload_json boolCodec true emptyStore) = .ok true :=
  upload_download_json_round_trip boolCodec (S3Addr.mk ['b'] ['k']) true
    emptyStore (by decide)

/-- C5: `download_bytes` on an absent key fails with `notFound`; a non-NoSuchKey
SDK failure surfaces as `transport`; a body stream that cannot be drained
surfaces as `bodyReadError`; the three error values are pairwise distinct, so
the caller can tell them apart; and on success the raw stored payload bytes
are returned. -/
theorem download_bytes_error_taxonomy :
    (∀ (a : S3Addr) (σ : Store), σ a.bucket a.key = none →
      a.download_bytes σ = .error .notFound)
    ∧ (∀ (a : S3Addr) (σ : Store) (obj : S3Object), σ a.bucket a.key = some obj →
      a.download_bytes σ = .ok obj.data)
    ∧ downloadBytesOutcome .serviceOther = .error .transport
    ∧ (∀ bs, downloadBytesOutcome (.success (.ok bs)) = .ok bs)
    ∧ downloadBytesOutcome (.success .corrupt) = .error .bodyReadError
    ∧ S3Error.notFound ≠ S3Error.transport
    ∧ S3Error.notFound ≠ S3Error.bodyReadError
    ∧ S3Error.transport ≠ S3Error.bodyReadError := by
  refine ⟨?_, ?_, rfl, fun bs => rfl, rfl, by decide, by decide, by decide⟩
  · intro a σ hnone
    simp [S3Addr.download_bytes, s3GetObject, hnone, downloadBytesOutcome]
  · intro a σ obj hsome
    simp [S3Addr.download_bytes, s3GetObject, hsome, downloadBytesOutcome,
      collectBody]

/-- Witness for C5: a never-uploaded key downloads as `notFound`. -/
theorem download_bytes_error_taxonomy_witness :
    (S3Addr.mk ['b'] ['k']).download_bytes emptyStore = .error .notFound :=
  download_bytes_error_taxonomy.1 (S3Addr.mk ['b'] ['k']) emptyStore rfl

/-- C6: over a well-formed backend run, `delete_all` behaves exactly like the
flat sequential reference `runDeletes` over the full listed key set — each
listed key is deleted individually, in listing order, with no parallelism.
When every delete succeeds the operation returns plain success having deleted
every listed key; when some delete fails it aborts at the first failing key,
surfaces that key's underlying error unchanged, and has deleted exactly the
keys listed before it (no partial-cleanup accounting beyond the error). -/
theorem delete_all_sequential_abort_first_failure
    (pages : List ListPage) (f : Str → Option S3Error) (h : chainOk pages = true) :
    delete_all f (pages.map Except.ok) = runDeletes f (allKeys pages)
    ∧ ((∀ k ∈ allKeys pages, f k = none) →
        delete_all f (pages.map Except.ok) = (.ok (), allKeys pages))
    ∧ (∀ done k rest e, allKeys pages = done ++ k :: rest →
        (∀ x ∈ done, f x = none) → f k = some e →
        delete_all f (pages.map Except.ok) = (.error e, done)) := by
  have hflat := delete_all_eq_runDeletes f pages h
  refine ⟨hflat, ?_, ?_⟩
  · intro hall
    rw [hflat, runDeletes_all_ok f _ hall]
  · intro done k rest e hsplit hdone hk
    rw [hflat, hsplit, runDeletes_first_err f done k rest e hdone hk]

/-- Backend run used by the C6 witness: one page listing keys a, b, c. -/
def c6Pages : List ListPage :=
  [⟨some [some ['a'], some ['b'], some ['c']], some false, none⟩]

/-- Delete-fault oracle used by the C6 witness: deleting key b fails. -/
def c6Faults (k : Str) : Option S3Error :=
  if k = ['b'] then some .transport else none

/-- Witness for C6: with keys a, b, c listed and the delete of b failing, the
operation surfaces b's transport error having deleted exactly a. -/
theorem delete_all_sequential_abort_first_failure_witness :
    delete_all c6Faults (c6Pages.map Except.ok) = (.error .transport, [['a']]) := by
  have h := delete_all_sequential_abort_first_failure c6Pages c6Faults (by decide)
  exact h.2.2 [['a']] ['b'] [['c']] .transport (by decide) (by decide) (by decide)

/-- C7: canonical-location agreement — the JSON key is the derived key plus
the literal ".json", and the typed operations all address the derived bucket
and that same JSON key: uploading then downloading at the same domain address
returns the value, deleting after uploading makes the download miss
(`notFound`), and the generated URI embeds that same bucket and key. -/
theorem canonical_location_key_agreement {A T : Type} (c : JsonCodec T)
    (L : CannonicalS3ObjectLocation A) (addr : A) (σ : Store) (v : T)
    (hc : ∀ w, c.from_slice (c.to_string_pretty w) = some w) :
    get_openscrapers_json_key L addr
        = L.generate_object_key addr ++ ['.', 'j', 's', 'o', 'n']
    ∧ download_openscrapers_object c L addr (upload_object c L addr v σ) = .ok v
    ∧ download_openscrapers_object c L addr
        (delete_openscrapers_s3_object L addr (upload_object c L addr v σ))
        = .error .notFound
    ∧ (get_s3_json_uri L addr).bucket = L.generate_bucket addr
    ∧ (get_s3_json_uri L addr).key = get_openscrapers_json_key L addr := by
  refine ⟨rfl, ?_, ?_, rfl, rfl⟩
  · exact download_json_after_upload_json c _ v σ (hc v)
  · simp [download_openscrapers_object, delete_openscrapers_s3_object,
      S3Addr.delete_file, S3Addr.download_json, S3Addr.download_bytes,
      s3GetObject, Store.set, downloadBytesOutcome]

/-- Concrete canonical location over a trivial domain type, for the C7
witness. -/
def unitLocation : CannonicalS3ObjectLocation Unit :=
  ⟨fun _ => ['k'], fun _ => ['b'], fun _ => ⟨"r", "e", "a", "s"⟩⟩

/-- Witness for C7 at the concrete location and `Bool` codec. -/
theorem canonical_location_key_agreement_witness :
    get_openscrapers_json_key unitLocation ()
        = ['k'] ++ ['.', 'j', 's', 'o', 'n']
    ∧ download_openscrapers_object boolCodec unitLocation ()
        (upload_object boolCodec unitLocation () true emptyStore) = .ok true := by
  have h := canonical_location_key_agreement boolCodec unitLocation ()
    emptyStore true (by decide)
  exact ⟨h.1, h.2.1⟩

/-- C8 counterexample: the public-read marking is not a configurable policy
confined to one of several paths — at a concrete address both the byte-level
upload and the JSON upload (which goes through the same `put_object` call)
store the object with `public_read` set, and the embedded `upload_bytes`,
faithful to the source signature, takes no configuration flag.  This refutes
the claim that the marking "is exposed as a configuration flag rather than
being applied on every upload". -/
theorem upload_public_acl_not_configurable_cex :
    ((S3Addr.mk ['b'] ['k']).upload_bytes [7] emptyStore) ['b'] ['k']
        = some ⟨[7], true⟩
    ∧ (((S3Addr.mk ['b'] ['k']).upload_json boolCodec true emptyStore)
        ['b'] ['k']).map S3Object.public_read = some true := by
  constructor <;> decide

/-- C8 (amended): `upload_bytes` overwrites the object at (bucket, key)
unconditionally — whatever the store held there, afterwards the slot holds
exactly the uploaded bytes — with no conditional or if-absent semantics, and
leaves every other slot unchanged; the public-read ACL is hard-coded on this
single upload path (through which `upload_json` also goes), so every upload
stores a publicly readable object, and no configuration flag exists. -/
theorem upload_bytes_unconditional_overwrite_public_acl (a : S3Addr)
    (bytes : Bytes) (σ : Store) :
    (a.upload_bytes bytes σ) a.bucket a.key = some ⟨bytes, true⟩
    ∧ (∀ b k, ¬(b = a.bucket ∧ k = a.key) → (a.upload_bytes bytes σ) b k = σ b k)
    ∧ (∀ (T : Type) (c : JsonCodec T) (v : T),
        (a.upload_json c v σ) a.bucket a.key
          = some ⟨c.to_string_pretty v, true⟩) := by
  refine ⟨Store.set_self σ a.bucket a.key _, ?_, ?_⟩
  · intro b k hbk
    exact Store.set_other σ a.bucket a.key b k _ hbk
  · intro T c v
    exact Store.set_self σ a.bucket a.key _

/-- Witness for the amended C8: a concrete upload overwrites its own slot with
a publicly readable object and leaves a different key untouched. -/
theorem upload_bytes_unconditional_overwrite_public_acl_witness :
    ((S3Addr.mk ['b'] ['k']).upload_bytes [7] emptyStore) ['b'] ['k']
        = some ⟨[7], true⟩
    ∧ ((S3Addr.mk ['b'] ['k']).upload_bytes [7] emptyStore) ['b'] ['x'] = none := by
  have h := upload_bytes_unconditional_overwrite_public_acl
    (S3Addr.mk ['b'] ['k']) [7] emptyStore
  refine ⟨h.1, ?_⟩
  rw [h.2.1 ['b'] ['x'] (by decide)]
  rfl

/-- C9: credential-set equality compares cloud region and endpoint only — the
source `PartialEq` is true exactly when regions and endpoints agree, whatever
the two secret fields hold — and the debug representation never depends on the
secrets: credential sets agreeing on region and endpoint render identical
debug output even when their access and secret keys differ. -/
theorem credentials_eq_and_debug_ignore_secrets (a b : S3Credentials) :
    (S3Credentials.beq a b = true ↔
      a.cloud_region = b.cloud_region ∧ a.endpoint = b.endpoint)
    ∧ (a.cloud_region = b.cloud_region → a.endpoint = b.endpoint →
      S3Credentials.debugFmt a = S3Credentials.debugFmt b) := by
  constructor
  · simp [S3Credentials.beq]
  · intro h1 h2
    unfold S3Credentials.debugFmt
    rw [h1, h2]

/-- Witness for C9: two credential sets differing only in their secrets
compare equal and produce identical debug output. -/
theorem credentials_eq_and_debug_ignore_secrets_witness :
    S3Credentials.beq ⟨"r", "e", "a1", "s1"⟩ ⟨"r", "e", "a2", "s2"⟩ = true
    ∧ S3Credentials.debugFmt ⟨"r", "e", "a1", "s1"⟩
        = S3Credentials.debugFmt ⟨"r", "e", "a2", "s2"⟩ := by
  have h := credentials_eq_and_debug_ignore_secrets
    ⟨"r", "e", "a1", "s1"⟩ ⟨"r", "e", "a2", "s2"⟩
  exact ⟨h.1.mpr ⟨rfl, rfl⟩, h.2 rfl rfl⟩

/-- C10: the destination-key remapping of `copy_into` is a total function —
for a listed key that does not start with the source prefix the strip is
skipped and the destination key is the destination prefix followed by the
whole source key, and for a key that does carry the prefix it is the
destination prefix followed by the stripped remainder. -/
theorem destination_key_total_unprefixed (srcPre destPre k : Str) :
    (srcPre.isPrefixOf k = false →
      destination_key srcPre destPre k = destPre ++ k)
    ∧ (srcPre.isPrefixOf k = true →
      destination_key srcPre destPre k = destPre ++ k.drop srcPre.length) := by
  constructor
  · intro h
    simp [destination_key, stripPre, h]
  · intro h
    simp [destination_key, stripPre, h]

/-- Witness for C10: a key outside the source prefix is kept whole and just
gets the destination prefix prepended. -/
theorem destination_key_total_unprefixed_witness :
    destination_key ['s', '/'] ['d', '/'] ['x'] = ['d', '/'] ++ ['x'] :=
  (destination_key_total_unprefixed ['s', '/'] ['d', '/'] ['x']).1 (by decide)
